import Mathlib

/-!
Verification development for the adaptive mastery tracking and
recommendation engine of the cruzhacks26 tutoring application.

The repository's checked-in sources contain the frontend: API client
wrappers and type declarations in `frontend/components/ScratchPaper.tsx`,
dashboard pages, and the question-canvas page.  The backend engine
itself (the FastAPI `/bkt/*` handlers implementing the BKT update,
unlock propagation, Elo tracking, recommendation policy and record
store) is not present in the sources.  The engine is therefore modelled
here from the design specification (`spec.md` sections 3, 4 and 8),
faithfully to its words; the question-canvas submission effect is
embedded directly from the source (the `submitToBKT` effect of the
question page).

Probabilities and ratings are modelled as rationals so that every
engine-level definition is executable; only the Elo expected-score
formula, which involves a real exponential, lives over the reals.
-/

/-- Modelled from the spec: the four BKT parameters of a concept
(`P_L0, P_T, P_G, P_S`, spec section 3 "Concept"); the backend module
holding them is not in the checked-in sources.  The `P_L` field is the
prior/current mastery probability fed into an update. -/
structure BKTParams where
  P_L : ℚ
  P_T : ℚ
  P_G : ℚ
  P_S : ℚ
deriving DecidableEq, Repr

/-- Clamp a rational to the unit interval, as required by the spec's
"then clamp to `[0,1]`" step (spec section 4.2). -/
def clamp01 (x : ℚ) : ℚ := max 0 (min 1 x)

/-- Modelled from the spec: the "small epsilon" guarding the
evidence-step denominator (spec section 4.2); the backend constant is
not in the checked-in sources, so a representative small value is
used. -/
def bktEpsilon : ℚ := 1 / 1000000000

/-- Modelled from the spec: the numerator of the evidence step of the
BKT update (spec section 4.2), by branch on the correctness outcome. -/
def evidenceNum (p : BKTParams) (correct : Bool) : ℚ :=
  if correct then p.P_L * (1 - p.P_S) else p.P_L * p.P_S

/-- Modelled from the spec: the denominator of the evidence step of the
BKT update (spec section 4.2), by branch on the correctness outcome. -/
def evidenceDenom (p : BKTParams) (correct : Bool) : ℚ :=
  if correct then p.P_L * (1 - p.P_S) + (1 - p.P_L) * p.P_G
  else p.P_L * p.P_S + (1 - p.P_L) * (1 - p.P_G)

/-- Modelled from the spec: the learning step
`P_L' = p_ev + (1 - p_ev) * P_T` (spec section 4.2). -/
def learnStep (p : BKTParams) (pEv : ℚ) : ℚ := pEv + (1 - pEv) * p.P_T

/-- Modelled from the spec: the posterior mastery probability of one
BKT update (spec section 4.2): evidence step guarded by the epsilon
test on the denominator (degenerate parameters skip the evidence step),
then learning step, then clamp to `[0,1]`. -/
def bktPosterior (p : BKTParams) (correct : Bool) : ℚ :=
  if evidenceDenom p correct ≤ bktEpsilon then clamp01 (learnStep p p.P_L)
  else clamp01 (learnStep p (evidenceNum p correct / evidenceDenom p correct))

/-- Result of one BKT update: the posterior mastery probability and the
observable degenerate-parameters flag (spec section 4.2 guard). -/
structure BKTResult where
  posterior : ℚ
  degenerate : Bool
deriving DecidableEq, Repr

/-- Modelled from the spec: the BKT Updater contract
`update(priorMastery, params, correct) -> posteriorMastery` together
with the observable degenerate-parameters flag (spec section 4.2); the
backend implementation is not in the checked-in sources. -/
def bktUpdate (p : BKTParams) (correct : Bool) : BKTResult :=
  { posterior := bktPosterior p correct
    degenerate := decide (evidenceDenom p correct ≤ bktEpsilon) }

lemma clamp01_nonneg (x : ℚ) : 0 ≤ clamp01 x := le_max_left 0 (min 1 x)

lemma clamp01_le_one (x : ℚ) : clamp01 x ≤ 1 :=
  max_le (by norm_num) (min_le_left 1 x)

/-- C1: for every choice of BKT parameters in `[0,1]` and every boolean
correctness outcome, the posterior mastery probability produced by the
BKT Updater lies within `[0,1]` (the learning step is followed by a
clamp to `[0,1]`). -/
theorem bkt_posterior_in_unit_interval (p : BKTParams) (correct : Bool)
    (hL0 : 0 ≤ p.P_L) (hL1 : p.P_L ≤ 1) (hT0 : 0 ≤ p.P_T) (hT1 : p.P_T ≤ 1)
    (hG0 : 0 ≤ p.P_G) (hG1 : p.P_G ≤ 1) (hS0 : 0 ≤ p.P_S) (hS1 : p.P_S ≤ 1) :
    0 ≤ (bktUpdate p correct).posterior ∧ (bktUpdate p correct).posterior ≤ 1 := by
  show 0 ≤ bktPosterior p correct ∧ bktPosterior p correct ≤ 1
  unfold bktPosterior
  split
  · exact ⟨clamp01_nonneg _, clamp01_le_one _⟩
  · exact ⟨clamp01_nonneg _, clamp01_le_one _⟩

/-- C1 witness: the bound instantiated at `P_L = 1/2, P_T = 1/10,
P_G = 1/5, P_S = 1/10` with a correct outcome. -/
theorem bkt_posterior_in_unit_interval_witness :
    (0 ≤ (1/2 : ℚ) ∧ (1/2 : ℚ) ≤ 1) ∧
    0 ≤ (bktUpdate ⟨1/2, 1/10, 1/5, 1/10⟩ true).posterior ∧
    (bktUpdate ⟨1/2, 1/10, 1/5, 1/10⟩ true).posterior ≤ 1 :=
  ⟨⟨by norm_num, by norm_num⟩,
    bkt_posterior_in_unit_interval ⟨1/2, 1/10, 1/5, 1/10⟩ true
      (by norm_num) (by norm_num) (by norm_num) (by norm_num)
      (by norm_num) (by norm_num) (by norm_num) (by norm_num)⟩

/-- The spec's worked example parameters for its two-correct-updates
property: `P_L = 0.30, P_T = 0.10, P_G = 0.20, P_S = 0.10`. -/
def c2Params : BKTParams := ⟨3/10, 1/10, 1/5, 1/10⟩

/-- C2 counterexample: with `P_L=0.30, P_T=0.10, P_G=0.20, P_S=0.10`
and a correct outcome, the spec's own update formula yields a first
posterior of `142/205 ≈ 0.693`, which is not approximately `0.542`
(it differs from `0.542` by more than `0.1`). -/
theorem bkt_first_posterior_not_0542 :
    (bktUpdate c2Params true).posterior = 142/205 ∧
    ¬ |(142/205 : ℚ) - 542/1000| ≤ 1/10 := by
  constructor
  · show bktPosterior c2Params true = 142/205
    norm_num [bktPosterior, evidenceNum, evidenceDenom, bktEpsilon, clamp01,
      learnStep, c2Params]
  · rw [abs_le]
    intro h
    have h2 := h.2
    norm_num at h2

/-- C2 amended: two consecutive correct observations starting from
`P_L=0.30, P_T=0.10, P_G=0.20, P_S=0.10` each strictly increase `P_L`;
the first update yields `142/205 ≈ 0.693` (not `≈0.542`), and feeding
that posterior back in with another correct outcome yields
`239/260 ≈ 0.919`. -/
theorem bkt_two_correct_updates_increase :
    (bktUpdate c2Params true).posterior = 142/205 ∧
    c2Params.P_L < 142/205 ∧
    (bktUpdate { c2Params with P_L := 142/205 } true).posterior = 239/260 ∧
    (142/205 : ℚ) < 239/260 := by
  refine ⟨?_, by norm_num [c2Params], ?_, by norm_num⟩
  · show bktPosterior c2Params true = 142/205
    norm_num [bktPosterior, evidenceNum, evidenceDenom, bktEpsilon, clamp01,
      learnStep, c2Params]
  · show bktPosterior _ true = 239/260
    norm_num [bktPosterior, evidenceNum, evidenceDenom, bktEpsilon, clamp01,
      learnStep, c2Params]

/-- Modelled from the spec: the per-concept mastery status
`locked / unlocked / mastered` (spec section 3 "Concept Mastery"; the
in-engine baseline for an unlocked, not-yet-mastered concept is the
`learning`/`unlocked` state, represented here by `unlocked`). -/
inductive MStatus where
  | locked
  | unlocked
  | mastered
deriving DecidableEq, Repr

/-- Numeric rank of a status along the `locked → unlocked → mastered`
progression (spec section 3 invariant). -/
def MStatus.rank : MStatus → ℕ
  | .locked => 0
  | .unlocked => 1
  | .mastered => 2

/-- Modelled from the spec: a knowledge-graph node, with its unique id,
prerequisite concept ids and default BKT priors (spec section 3
"Concept"); names, descriptions and depth are not needed by any claim
and are omitted. -/
structure KConcept where
  cid : ℕ
  prereqs : List ℕ
  priors : BKTParams
deriving DecidableEq, Repr

/-- Modelled from the spec: a subject's knowledge graph as its
collection of concepts (spec section 3 "Knowledge Graph"). -/
structure Graph where
  concepts : List KConcept
deriving DecidableEq, Repr

/-- Look up a concept by id (first match). -/
def Graph.find (g : Graph) (c : ℕ) : Option KConcept :=
  g.concepts.find? (fun k => decide (k.cid = c))

/-- Modelled from the spec: `prerequisitesOf(conceptId)` of the
Knowledge Graph Store (spec section 4.1); an unknown id has no
prerequisites. -/
def prerequisitesOf (g : Graph) (c : ℕ) : List ℕ :=
  ((g.find c).map KConcept.prereqs).getD []

/-- Modelled from the spec: `rootsOf(graph)` — the concepts with no
prerequisites (spec sections 3 and 4.1). -/
def rootsOf (g : Graph) : List ℕ :=
  (g.concepts.filter (fun k => k.prereqs.isEmpty)).map KConcept.cid

/-- A graph whose concept ids are pairwise distinct; the spec requires
concept ids to be unique and the Knowledge Graph Store to reject
invalid graphs at load time (spec sections 3 and 4.1). -/
def GraphWF (g : Graph) : Prop := (g.concepts.map KConcept.cid).Nodup

/-- Modelled from the spec: the per-learner, per-concept mastery state
(spec section 3 "Concept Mastery"): current `P_L`, the BKT parameters
in effect, observation and correct counts, and the status; the nullable
timestamps are not needed by any claim and are omitted. -/
structure ConceptMastery where
  P_L : ℚ
  params : BKTParams
  observations : ℕ
  correct_count : ℕ
  status : MStatus
deriving DecidableEq, Repr

/-- Modelled from the spec: a mistake history entry (spec section 3
"Mistake Record"); only its presence matters to the claims, so the
error type is kept as a numeric code. -/
structure MistakeRec where
  step_number : ℕ
  error_code : ℕ
deriving DecidableEq, Repr

/-- Modelled from the spec: the per-(learner, subject) Mastery Record
aggregate (spec section 3 "Mastery Record"): Elo rating, concept-id
keyed mastery entries (only ever-unlocked concepts appear), the
unlocked and mastered concept-id sets, the answer counter, and the
append-only mistake history (keyed by concept id). -/
structure MasteryRecord where
  elo_rating : ℚ
  concepts : List (ℕ × ConceptMastery)
  unlocked : List ℕ
  mastered : List ℕ
  total_questions_answered : ℕ
  mistake_history : List (ℕ × MistakeRec)
deriving DecidableEq, Repr

/-- Modelled from the spec: seed a Concept Mastery entry from the
graph's default priors (`P_L = P_L0`, observations = 0, spec section
4.3); a freshly seeded concept is in the unlocked baseline state. -/
def seedMastery (p : BKTParams) : ConceptMastery :=
  { P_L := p.P_L, params := p, observations := 0, correct_count := 0
    status := MStatus.unlocked }

/-- Modelled from the spec: the default initial student Elo rating
(spec section 4.4, `studentElo=1200`). -/
def defaultElo : ℚ := 1200

/-- Modelled from the spec: the record created by a fresh `initialize`
call — roots unlocked unconditionally, zero observations, default Elo,
empty history (spec sections 4.3, 4.6). -/
def freshRecord (g : Graph) : MasteryRecord :=
  { elo_rating := defaultElo
    concepts := (g.concepts.filter (fun k => k.prereqs.isEmpty)).map
      (fun k => (k.cid, seedMastery k.priors))
    unlocked := rootsOf g
    mastered := []
    total_questions_answered := 0
    mistake_history := [] }

/-- Look up the mastery entry of a concept in a record. -/
def lookupCM (r : MasteryRecord) (c : ℕ) : Option ConceptMastery :=
  ((r.concepts.find? (fun e => decide (e.1 = c))).map Prod.snd)

/-- Replace the mastery entry of a concept (all occurrences of the
key). -/
def setCM (cs : List (ℕ × ConceptMastery)) (c : ℕ) (cm : ConceptMastery) :
    List (ℕ × ConceptMastery) :=
  cs.map (fun e => if e.1 = c then (c, cm) else e)

/-- Modelled from the spec: the status recompute after a BKT update
(spec section 4.2): `mastered` if `P_L' ≥ masteryThreshold` and the
observation count is at least 1, else the learning/unlocked
baseline.  The threshold is configuration (default 0.90). -/
def statusRecompute (threshold : ℚ) (pl : ℚ) (obs : ℕ) : MStatus :=
  if threshold ≤ pl ∧ 1 ≤ obs then MStatus.mastered else MStatus.unlocked

/-- Modelled from the spec: the default mastery threshold 0.90 (spec
section 4.2). -/
def defaultThreshold : ℚ := 9/10

/-- Modelled from the spec: one observation applied to a Concept
Mastery entry — BKT update on the current `P_L` with the parameters in
effect, counter increments, then status recompute (spec sections 4.2
and 4.6). -/
def applyObservation (threshold : ℚ) (cm : ConceptMastery) (correct : Bool) :
    ConceptMastery :=
  let res := bktUpdate { cm.params with P_L := cm.P_L } correct
  { cm with
      P_L := res.posterior
      observations := cm.observations + 1
      correct_count := cm.correct_count + (if correct then 1 else 0)
      status := statusRecompute threshold res.posterior (cm.observations + 1) }

/-- A concept is unlockable in a record when it is not yet unlocked and
every one of its prerequisites is in the mastered set (spec section
4.3). -/
def unlockable (r : MasteryRecord) (k : KConcept) : Bool :=
  !(decide (k.cid ∈ r.unlocked)) && k.prereqs.all (fun p => decide (p ∈ r.mastered))

/-- Modelled from the spec: the Unlock Propagator
`propagate(graph, record, justMastered) -> updatedRecord` (spec section
4.3): every concept all of whose prerequisites are mastered and which
is not yet unlocked is added to the unlocked set and seeded from the
graph's default priors.  Scanning every concept of the graph at once is
the closure-complete form required by the spec, since propagation never
adds to the mastered set.  Returns the updated record and the newly
unlocked ids. -/
def propagate (g : Graph) (r : MasteryRecord) : MasteryRecord × List ℕ :=
  let newly := g.concepts.filter (unlockable r)
  ({ r with
      unlocked := r.unlocked ++ newly.map KConcept.cid
      concepts := r.concepts ++ newly.map (fun k => (k.cid, seedMastery k.priors)) },
   newly.map KConcept.cid)

/-- Modelled from the spec: the submission rejection cases of the
Mastery Record Store (spec sections 4.6, 7). -/
inductive SubmitError where
  | conceptNotUnlocked
deriving DecidableEq, Repr

/-- Modelled from the spec: the result summary returned by a
successful `submitAnswer` (spec section 4.6; mirrors the frontend
`AnswerResult` type of `ScratchPaper.tsx`). -/
structure SubmitResult where
  mastery_change : ℚ
  elo_change : ℚ
  new_P_L : ℚ
  new_status : MStatus
  newly_unlocked : List ℕ
  concept_mastered : Bool
deriving DecidableEq, Repr

/-- Modelled from the spec: the `submitAnswer` operation of the Mastery
Record Store (spec section 4.6): reject with `ConceptNotUnlocked` when
the concept is not currently unlocked; otherwise BKT update → status
recompute → unlock propagation (on a fresh mastery event) → Elo update
→ mistake append → counter increment.  The Elo update of spec section
4.4 involves a real exponential, so the record pipeline is parametrized
by the Elo update function `ef`; no record-level claim depends on its
value. -/
def submitAnswer (ef : ℚ → ℚ → Bool → ℚ) (threshold : ℚ) (g : Graph)
    (r : MasteryRecord) (c : ℕ) (correct : Bool) (qElo : ℚ)
    (ms : List MistakeRec) : Except SubmitError (MasteryRecord × SubmitResult) :=
  if c ∈ r.unlocked then
    match lookupCM r c with
    | none => Except.error SubmitError.conceptNotUnlocked
    | some cm =>
      let cm2 := applyObservation threshold cm correct
      let r1 : MasteryRecord := { r with concepts := setCM r.concepts c cm2 }
      if cm2.status = MStatus.mastered ∧ ¬ cm.status = MStatus.mastered then
        let r2 : MasteryRecord := { r1 with mastered := r1.mastered ++ [c] }
        let pr := propagate g r2
        Except.ok
          ({ pr.1 with
              elo_rating := ef r.elo_rating qElo correct
              total_questions_answered := pr.1.total_questions_answered + 1
              mistake_history := pr.1.mistake_history ++ ms.map (fun m => (c, m)) },
           { mastery_change := cm2.P_L - cm.P_L
             elo_change := ef r.elo_rating qElo correct - r.elo_rating
             new_P_L := cm2.P_L
             new_status := cm2.status
             newly_unlocked := pr.2
             concept_mastered := true })
      else
        Except.ok
          ({ r1 with
              elo_rating := ef r.elo_rating qElo correct
              total_questions_answered := r1.total_questions_answered + 1
              mistake_history := r1.mistake_history ++ ms.map (fun m => (c, m)) },
           { mastery_change := cm2.P_L - cm.P_L
             elo_change := ef r.elo_rating qElo correct - r.elo_rating
             new_P_L := cm2.P_L
             new_status := cm2.status
             newly_unlocked := []
             concept_mastered := false })
  else Except.error SubmitError.conceptNotUnlocked

/-- The stored record after a submission: a rejected submission leaves
the stored record unchanged (spec section 7). -/
def storeStep (ef : ℚ → ℚ → Bool → ℚ) (threshold : ℚ) (g : Graph)
    (r : MasteryRecord) (c : ℕ) (correct : Bool) (qElo : ℚ)
    (ms : List MistakeRec) : MasteryRecord :=
  match submitAnswer ef threshold g r c correct qElo ms with
  | Except.error _ => r
  | Except.ok (r2, _) => r2

/-- The records reachable from a fresh `initialize` by any sequence of
submissions (spec sections 4.6, 5). -/
inductive Reachable (ef : ℚ → ℚ → Bool → ℚ) (threshold : ℚ) (g : Graph) :
    MasteryRecord → Prop where
  | init : Reachable ef threshold g (freshRecord g)
  | step (r : MasteryRecord) (c : ℕ) (correct : Bool) (qElo : ℚ)
      (ms : List MistakeRec) : Reachable ef threshold g r →
      Reachable ef threshold g (storeStep ef threshold g r c correct qElo ms)

/-- Modelled from the spec: `reset(learnerId, subjectId)` deletes the
stored record (spec section 4.6); the store for one (learner, subject)
key is an optional record. -/
def resetStore (s : Option MasteryRecord) : Option MasteryRecord := none

/-- Modelled from the spec: `initialize(learnerId, subjectId)` is
idempotent — an existing record is returned unchanged, otherwise a
fresh root-unlocked record is created (spec section 4.6). -/
def initRecord (g : Graph) (s : Option MasteryRecord) : MasteryRecord :=
  s.getD (freshRecord g)

/-- C3: the status recompute after a BKT update is a pure function of
the updated state that returns `mastered` exactly when the posterior
`P_L'` is at least the configured mastery threshold and the observation
count is at least 1; in every other case the status is the
learning/unlocked baseline. -/
theorem status_recompute_mastered_iff (threshold : ℚ) (cm : ConceptMastery)
    (correct : Bool) :
    ((applyObservation threshold cm correct).status = MStatus.mastered ↔
      threshold ≤ (applyObservation threshold cm correct).P_L ∧
        1 ≤ (applyObservation threshold cm correct).observations) ∧
    ((applyObservation threshold cm correct).status = MStatus.mastered ∨
      (applyObservation threshold cm correct).status = MStatus.unlocked) := by
  unfold applyObservation statusRecompute
  dsimp only
  split
  case isTrue h => exact ⟨⟨fun _ => h, fun _ => rfl⟩, Or.inl rfl⟩
  case isFalse h =>
    exact ⟨⟨fun hco => absurd hco (by decide), fun hco => absurd hco h⟩, Or.inr rfl⟩

/-- C7: submitting an answer for a concept that is not currently in the
record's unlocked set fails with `ConceptNotUnlocked`, and the stored
record is left completely unchanged. -/
theorem submit_locked_concept_rejected (ef : ℚ → ℚ → Bool → ℚ)
    (threshold : ℚ) (g : Graph) (r : MasteryRecord) (c : ℕ) (correct : Bool)
    (qElo : ℚ) (ms : List MistakeRec) (h : c ∉ r.unlocked) :
    submitAnswer ef threshold g r c correct qElo ms =
      Except.error SubmitError.conceptNotUnlocked ∧
    storeStep ef threshold g r c correct qElo ms = r := by
  have hs : submitAnswer ef threshold g r c correct qElo ms =
      Except.error SubmitError.conceptNotUnlocked := by
    unfold submitAnswer
    rw [if_neg h]
  refine ⟨hs, ?_⟩
  unfold storeStep
  rw [hs]

/-- C8: reset followed by initialize produces a record identical to the
one produced by a single fresh initialize call — roots unlocked, no
mastery, zero observations, zero answers, and the default Elo rating of
1200. -/
theorem reset_then_init_eq_fresh (g : Graph) (s : Option MasteryRecord) :
    initRecord g (resetStore s) = freshRecord g ∧
    (freshRecord g).elo_rating = 1200 ∧
    (freshRecord g).unlocked = rootsOf g ∧
    (freshRecord g).mastered = [] ∧
    (freshRecord g).total_questions_answered = 0 ∧
    ∀ e ∈ (freshRecord g).concepts,
      e.2.observations = 0 ∧ e.2.status = MStatus.unlocked := by
  refine ⟨rfl, rfl, rfl, rfl, rfl, ?_⟩
  intro e he
  simp only [freshRecord, List.mem_map] at he
  obtain ⟨k, _, rfl⟩ := he
  exact ⟨rfl, rfl⟩

lemma lookupCM_mem {r : MasteryRecord} {c : ℕ} {cm : ConceptMastery}
    (h : lookupCM r c = some cm) : ∃ e0 ∈ r.concepts, e0.2 = cm := by
  unfold lookupCM at h
  cases hf : r.concepts.find? (fun e => decide (e.1 = c)) with
  | none => rw [hf] at h; simp at h
  | some e0 =>
    rw [hf] at h
    simp at h
    exact ⟨e0, List.mem_of_find?_eq_some hf, h⟩

/-- Everything a successful submission guarantees about the stored
record: the concept was unlocked, the unlocked set only grows (and
every newly unlocked concept has all prerequisites mastered), the
mastered set grows by at most the submitted concept, and every mastery
entry of the result is an old entry, the observed update of an old
entry, or a freshly seeded entry. -/
lemma submit_ok_spec {ef : ℚ → ℚ → Bool → ℚ} {θ : ℚ} {g : Graph}
    {r : MasteryRecord} {c : ℕ} {b : Bool} {q : ℚ} {ms : List MistakeRec}
    {pr : MasteryRecord × SubmitResult}
    (h : submitAnswer ef θ g r c b q ms = Except.ok pr) :
    c ∈ r.unlocked ∧
    (∃ t, pr.1.unlocked = r.unlocked ++ t ∧
      ∀ x ∈ t, ∃ k ∈ g.concepts, k.cid = x ∧ ∀ pq ∈ k.prereqs, pq ∈ pr.1.mastered) ∧
    (pr.1.mastered = r.mastered ∨ pr.1.mastered = r.mastered ++ [c]) ∧
    (∀ e ∈ pr.1.concepts, e ∈ r.concepts ∨
      (∃ e0 ∈ r.concepts, e.2 = applyObservation θ e0.2 b) ∨
      ∃ pp, e.2 = seedMastery pp) := by
  unfold submitAnswer at h
  split at h
  case isFalse hnm => exact absurd h (by simp)
  case isTrue hmem =>
    split at h
    next => exact absurd h (by simp)
    next cm hcm =>
      obtain ⟨e0, he0, he0v⟩ := lookupCM_mem hcm
      dsimp only at h
      split at h
      next hmast =>
        injection h with h'
        subst h'
        dsimp only [propagate]
        refine ⟨hmem, ⟨_, rfl, ?_⟩, Or.inr rfl, ?_⟩
        · intro x hx
          simp only [List.mem_map, List.mem_filter] at hx
          obtain ⟨k, ⟨hkg, hku⟩, rfl⟩ := hx
          refine ⟨k, hkg, rfl, ?_⟩
          intro pq hpq
          simp only [unlockable, Bool.and_eq_true, List.all_eq_true,
            decide_eq_true_eq] at hku
          exact hku.2 pq hpq
        · intro e he
          simp only [List.mem_append] at he
          rcases he with he | he
          · simp only [setCM, List.mem_map] at he
            obtain ⟨e1, he1, rfl⟩ := he
            split
            case isTrue h1 =>
              exact Or.inr (Or.inl ⟨e0, he0, by rw [he0v]⟩)
            case isFalse h1 => exact Or.inl he1
          · simp only [List.mem_map] at he
            obtain ⟨k, _, rfl⟩ := he
            exact Or.inr (Or.inr ⟨k.priors, rfl⟩)
      next hmast =>
        injection h with h'
        subst h'
        dsimp only
        refine ⟨hmem, ⟨[], by simp, by simp⟩, Or.inl rfl, ?_⟩
        intro e he
        simp only [setCM, List.mem_map] at he
        obtain ⟨e1, he1, rfl⟩ := he
        split
        case isTrue h1 =>
          exact Or.inr (Or.inl ⟨e0, he0, by rw [he0v]⟩)
        case isFalse h1 => exact Or.inl he1

lemma storeStep_cases (ef : ℚ → ℚ → Bool → ℚ) (θ : ℚ) (g : Graph)
    (r : MasteryRecord) (c : ℕ) (b : Bool) (q : ℚ) (ms : List MistakeRec) :
    storeStep ef θ g r c b q ms = r ∨
    ∃ pr, submitAnswer ef θ g r c b q ms = Except.ok pr ∧
      storeStep ef θ g r c b q ms = pr.1 := by
  unfold storeStep
  cases hsub : submitAnswer ef θ g r c b q ms with
  | error e => exact Or.inl rfl
  | ok pr =>
    obtain ⟨r2, res⟩ := pr
    exact Or.inr ⟨(r2, res), rfl, rfl⟩

lemma storeStep_unlocked_extends (ef : ℚ → ℚ → Bool → ℚ) (θ : ℚ) (g : Graph)
    (r : MasteryRecord) (c : ℕ) (b : Bool) (q : ℚ) (ms : List MistakeRec) :
    ∃ t, (storeStep ef θ g r c b q ms).unlocked = r.unlocked ++ t := by
  rcases storeStep_cases ef θ g r c b q ms with heq | ⟨pr, hok, heq⟩
  · exact ⟨[], by rw [heq]; simp⟩
  · obtain ⟨_, ⟨t, hu, _⟩, _, _⟩ := submit_ok_spec hok
    exact ⟨t, by rw [heq, hu]⟩

lemma reachable_mastered_subset_unlocked {ef : ℚ → ℚ → Bool → ℚ} {θ : ℚ}
    {g : Graph} {r : MasteryRecord} (hr : Reachable ef θ g r) :
    ∀ x ∈ r.mastered, x ∈ r.unlocked := by
  induction hr with
  | init => intro x hx; simp [freshRecord] at hx
  | step r c b q ms hr ih =>
    rcases storeStep_cases ef θ g r c b q ms with heq | ⟨pr, hok, heq⟩
    · rw [heq]; exact ih
    · rw [heq]
      obtain ⟨hmem, ⟨t, hu, _⟩, hm, _⟩ := submit_ok_spec hok
      intro x hx
      rw [hu]
      rcases hm with hm | hm <;> rw [hm] at hx
      · exact List.mem_append_left _ (ih x hx)
      · rcases List.mem_append.mp hx with hx | hx
        · exact List.mem_append_left _ (ih x hx)
        · simp only [List.mem_singleton] at hx
          subst hx
          exact List.mem_append_left _ hmem

lemma reachable_counts {ef : ℚ → ℚ → Bool → ℚ} {θ : ℚ} {g : Graph}
    {r : MasteryRecord} (hr : Reachable ef θ g r) :
    ∀ e ∈ r.concepts,
      e.2.correct_count ≤ e.2.observations ∧ e.2.status ≠ MStatus.locked := by
  induction hr with
  | init =>
    intro e he
    simp only [freshRecord, List.mem_map] at he
    obtain ⟨k, _, rfl⟩ := he
    exact ⟨Nat.le_refl 0, by simp [seedMastery]⟩
  | step r c b q ms hr ih =>
    rcases storeStep_cases ef θ g r c b q ms with heq | ⟨pr, hok, heq⟩
    · rw [heq]; exact ih
    · rw [heq]
      obtain ⟨_, _, _, hcs⟩ := submit_ok_spec hok
      intro e he
      rcases hcs e he with he' | ⟨e0, he0, hv⟩ | ⟨pp, hv⟩
      · exact ih e he'
      · have h0 := (ih e0 he0).1
        rw [hv]
        unfold applyObservation
        dsimp only
        refine ⟨?_, ?_⟩
        · cases b <;> simp <;> omega
        · unfold statusRecompute
          split <;> simp
      · rw [hv]
        exact ⟨Nat.le_refl 0, by simp [seedMastery]⟩

lemma reachable_prereqs_mastered {ef : ℚ → ℚ → Bool → ℚ} {θ : ℚ} {g : Graph}
    {r : MasteryRecord} (hwf : GraphWF g) (hr : Reachable ef θ g r) :
    ∀ k ∈ g.concepts, k.cid ∈ r.unlocked → ∀ p ∈ k.prereqs, p ∈ r.mastered := by
  induction hr with
  | init =>
    intro k hk hku p hp
    simp only [freshRecord, rootsOf, List.mem_map, List.mem_filter] at hku
    obtain ⟨k2, ⟨hk2g, hk2e⟩, hcid⟩ := hku
    have hkk : k2 = k := List.inj_on_of_nodup_map hwf hk2g hk hcid
    subst hkk
    rw [List.isEmpty_iff] at hk2e
    rw [hk2e] at hp
    simp at hp
  | step r c b q ms hr ih =>
    rcases storeStep_cases ef θ g r c b q ms with heq | ⟨pr, hok, heq⟩
    · rw [heq]; exact ih
    · rw [heq]
      obtain ⟨hmem, ⟨t, hu, ht⟩, hm, _⟩ := submit_ok_spec hok
      intro k hk hku p hp
      rw [hu] at hku
      rcases List.mem_append.mp hku with hku | hku
      · have hpm := ih k hk hku p hp
        rcases hm with hm | hm <;> rw [hm]
        · exact hpm
        · exact List.mem_append_left _ hpm
      · obtain ⟨k2, hk2g, hcid, hpre⟩ := ht _ hku
        have hkk : k2 = k := List.inj_on_of_nodup_map hwf hk2g hk hcid
        subst hkk
        exact hpre p hp

/-- C4: in every reachable Mastery Record state the unlocked concept
set contains the mastered concept set, and across any submit-answer
operation the size of the unlocked set never decreases. -/
theorem unlocked_superset_mastered_and_monotone (ef : ℚ → ℚ → Bool → ℚ)
    (θ : ℚ) (g : Graph) (r : MasteryRecord) (hr : Reachable ef θ g r) :
    (∀ x ∈ r.mastered, x ∈ r.unlocked) ∧
    ∀ c b q ms, r.unlocked.length ≤
      (storeStep ef θ g r c b q ms).unlocked.length := by
  refine ⟨reachable_mastered_subset_unlocked hr, ?_⟩
  intro c b q ms
  obtain ⟨t, ht⟩ := storeStep_unlocked_extends ef θ g r c b q ms
  rw [ht, List.length_append]
  omega

/-- An Elo update stand-in used to instantiate concrete runs of the
record pipeline; no record-level claim depends on the Elo value. -/
def demoElo : ℚ → ℚ → Bool → ℚ := fun s _ c => if c then s + 24 else s - 24

/-- A two-concept demonstration graph: root concept 0 and concept 1
with prerequisite 0. -/
def gAB : Graph := ⟨[⟨0, [], c2Params⟩, ⟨1, [0], c2Params⟩]⟩

/-- C4 witness: the freshly initialized record of the two-concept graph
is reachable, its mastered set is contained in its unlocked set, and no
submission shrinks the unlocked set. -/
theorem unlocked_superset_mastered_and_monotone_witness :
    (∀ x ∈ (freshRecord gAB).mastered, x ∈ (freshRecord gAB).unlocked) ∧
    ∀ c b q ms, (freshRecord gAB).unlocked.length ≤
      (storeStep demoElo defaultThreshold gAB (freshRecord gAB) c b q ms).unlocked.length :=
  unlocked_superset_mastered_and_monotone demoElo defaultThreshold gAB
    (freshRecord gAB) Reachable.init

/-- C9 counterexample: a Concept Mastery entry seeded with priors
`P_L0 = 19/20, P_T = 0, P_G = 1/2, P_S = 1/10` becomes `mastered` after
one correct observation (posterior `171/176 ≈ 0.97`), and the next
incorrect observation drops the posterior to `171/196 ≈ 0.87`, below
the default threshold, so the spec's status recompute sends the status
back to the unlocked baseline — the status regresses. -/
theorem mastered_status_can_regress :
    (applyObservation defaultThreshold (seedMastery ⟨19/20, 0, 1/2, 1/10⟩)
      true).status = MStatus.mastered ∧
    (applyObservation defaultThreshold
      (applyObservation defaultThreshold (seedMastery ⟨19/20, 0, 1/2, 1/10⟩)
        true) false).status = MStatus.unlocked ∧
    MStatus.rank MStatus.unlocked < MStatus.rank MStatus.mastered := by
  refine ⟨?_, ?_, by decide⟩ <;>
  · norm_num [applyObservation, statusRecompute, seedMastery, defaultThreshold,
      bktUpdate, bktPosterior, evidenceNum, evidenceDenom, bktEpsilon,
      clamp01, learnStep]

/-- C9 amended: every Concept Mastery entry of a reachable record
satisfies observation count ≥ correct count ≥ 0, the status never
regresses to `locked` (entries exist only for unlocked concepts), and
the record's mastered set never shrinks across submissions; however the
per-entry status can regress from `mastered` to the learning/unlocked
baseline when an incorrect answer drops the posterior below the
threshold. -/
theorem concept_entry_counts_and_mastered_monotone (ef : ℚ → ℚ → Bool → ℚ)
    (θ : ℚ) (g : Graph) (r : MasteryRecord) (hr : Reachable ef θ g r) :
    (∀ e ∈ r.concepts, 0 ≤ e.2.correct_count ∧
      e.2.correct_count ≤ e.2.observations ∧ e.2.status ≠ MStatus.locked) ∧
    ∀ c b q ms, ∀ x ∈ r.mastered, x ∈ (storeStep ef θ g r c b q ms).mastered := by
  constructor
  · intro e he
    have hc := reachable_counts hr e he
    exact ⟨Nat.zero_le _, hc.1, hc.2⟩
  · intro c b q ms x hx
    rcases storeStep_cases ef θ g r c b q ms with heq | ⟨pr, hok, heq⟩
    · rw [heq]; exact hx
    · rw [heq]
      obtain ⟨_, _, hm, _⟩ := submit_ok_spec hok
      rcases hm with hm | hm <;> rw [hm]
      · exact hx
      · exact List.mem_append_left _ hx

/-- C9 amended witness: the invariants instantiated at the freshly
initialized record of the two-concept graph. -/
theorem concept_entry_counts_and_mastered_monotone_witness :
    (∀ e ∈ (freshRecord gAB).concepts, 0 ≤ e.2.correct_count ∧
      e.2.correct_count ≤ e.2.observations ∧ e.2.status ≠ MStatus.locked) ∧
    ∀ c b q ms, ∀ x ∈ (freshRecord gAB).mastered,
      x ∈ (storeStep demoElo defaultThreshold gAB (freshRecord gAB) c b q ms).mastered :=
  concept_entry_counts_and_mastered_monotone demoElo defaultThreshold gAB
    (freshRecord gAB) Reachable.init

/-- Current `P_L` of a concept in a record (0 when absent). -/
def plOf (r : MasteryRecord) (c : ℕ) : ℚ :=
  ((lookupCM r c).map ConceptMastery.P_L).getD 0

/-- Modelled from the spec: comparison step of the "weakest active
concept" policy — prefer the lower current `P_L`, ties broken by the
smaller concept id (spec section 4.5, step 2). -/
def betterCandidate (r : MasteryRecord) (a b : ℕ) : ℕ :=
  if plOf r b < plOf r a ∨ (plOf r b = plOf r a ∧ b < a) then b else a

/-- Modelled from the spec: pick the unlocked-not-mastered concept with
the lowest current `P_L`, ties by smallest id (spec section 4.5). -/
def pickWeakest (r : MasteryRecord) : List ℕ → Option ℕ
  | [] => none
  | x :: xs => some (xs.foldl (betterCandidate r) x)

/-- Smallest id of a nonempty list (review mode, spec section 4.5). -/
def pickSmallest : List ℕ → Option ℕ
  | [] => none
  | x :: xs => some (xs.foldl min x)

/-- Two id lists contain the same ids. -/
def sameSet (a b : List ℕ) : Bool :=
  a.all (fun x => decide (x ∈ b)) && b.all (fun x => decide (x ∈ a))

/-- Modelled from the spec: the target-concept selection of the
Recommendation Policy (spec section 4.5): candidates are the unlocked
concepts not yet mastered; if any, take the weakest (lowest `P_L`, ties
by smallest id); if none and everything unlocked is mastered and the
mastered set is non-empty, review the mastered concept with the
smallest id; otherwise no concept is available. -/
def recommendTarget (r : MasteryRecord) : Option ℕ :=
  match pickWeakest r (r.unlocked.filter (fun c => !(decide (c ∈ r.mastered)))) with
  | some t => some t
  | none =>
    if !r.mastered.isEmpty && sameSet r.unlocked r.mastered then
      pickSmallest r.mastered
    else none

lemma foldl_choice_mem (f : ℕ → ℕ → ℕ) (hf : ∀ a b, f a b = a ∨ f a b = b)
    (xs : List ℕ) : ∀ x, xs.foldl f x ∈ x :: xs := by
  induction xs with
  | nil => intro x; simp
  | cons y ys ih =>
    intro x
    simp only [List.foldl_cons]
    rcases hf x y with he | he <;> rw [he]
    · rcases List.mem_cons.mp (ih x) with h | h
      · rw [h]; exact List.mem_cons_self _ _
      · exact List.mem_cons_of_mem _ (List.mem_cons_of_mem _ h)
    · exact List.mem_cons_of_mem _ (ih y)

lemma betterCandidate_choice (r : MasteryRecord) (a b : ℕ) :
    betterCandidate r a b = a ∨ betterCandidate r a b = b := by
  unfold betterCandidate
  split
  · exact Or.inr rfl
  · exact Or.inl rfl

lemma pickWeakest_mem {r : MasteryRecord} {xs : List ℕ} {t : ℕ}
    (h : pickWeakest r xs = some t) : t ∈ xs := by
  cases xs with
  | nil => simp [pickWeakest] at h
  | cons x xs =>
    simp only [pickWeakest, Option.some.injEq] at h
    subst h
    exact foldl_choice_mem (betterCandidate r) (betterCandidate_choice r) xs x

lemma pickSmallest_mem {xs : List ℕ} {t : ℕ}
    (h : pickSmallest xs = some t) : t ∈ xs := by
  cases xs with
  | nil => simp [pickSmallest] at h
  | cons x xs =>
    simp only [pickSmallest, Option.some.injEq] at h
    subst h
    exact foldl_choice_mem min (fun a b => min_choice a b) xs x

lemma recommendTarget_mem {r : MasteryRecord} {t : ℕ}
    (h : recommendTarget r = some t) : t ∈ r.unlocked ∨ t ∈ r.mastered := by
  unfold recommendTarget at h
  split at h
  next t2 hp =>
    injection h with h
    subst h
    exact Or.inl (List.mem_of_mem_filter (pickWeakest_mem hp))
  next hp =>
    split at h
    · exact Or.inr (pickSmallest_mem h)
    · exact absurd h (by simp)

/-- C5: in every reachable record state, whenever the Recommendation
Policy returns a target concept, every prerequisite of that concept is
in the record's mastered set. -/
theorem recommended_concept_prereqs_mastered (ef : ℚ → ℚ → Bool → ℚ)
    (θ : ℚ) (g : Graph) (r : MasteryRecord) (t : ℕ) (hwf : GraphWF g)
    (hr : Reachable ef θ g r) (ht : recommendTarget r = some t) :
    ∀ p ∈ prerequisitesOf g t, p ∈ r.mastered := by
  have htu : t ∈ r.unlocked := by
    rcases recommendTarget_mem ht with h | h
    · exact h
    · exact reachable_mastered_subset_unlocked hr t h
  intro p hp
  unfold prerequisitesOf at hp
  cases hf : g.find t with
  | none => rw [hf] at hp; simp at hp
  | some k =>
    rw [hf] at hp
    simp at hp
    have hkmem : k ∈ g.concepts := List.mem_of_find?_eq_some hf
    have hcid : k.cid = t := by
      have hs := List.find?_some hf
      simpa using hs
    exact reachable_prereqs_mastered hwf hr k hkmem (hcid ▸ htu) p hp

/-- C5 witness: on the freshly initialized record of the two-concept
graph the policy targets the root concept 0, whose (empty) prerequisite
set is trivially contained in the mastered set. -/
theorem recommended_concept_prereqs_mastered_witness :
    GraphWF gAB ∧ recommendTarget (freshRecord gAB) = some 0 ∧
    ∀ p ∈ prerequisitesOf gAB 0, p ∈ (freshRecord gAB).mastered :=
  ⟨by unfold GraphWF; decide, by decide,
    recommended_concept_prereqs_mastered demoElo defaultThreshold gAB
      (freshRecord gAB) 0 (by unfold GraphWF; decide) Reachable.init (by decide)⟩

/-- Modelled from the spec: the Elo expected score
`expected = 1 / (1 + 10^((questionElo - studentElo)/400))`
(spec section 4.4); the backend implementation is not in the checked-in
sources.  The real exponential makes this definition live over `ℝ`. -/
noncomputable def expectedScore (studentElo questionElo : ℝ) : ℝ :=
  1 / (1 + (10:ℝ) ^ ((questionElo - studentElo) / 400))

/-- Modelled from the spec: the Elo update
`newStudentElo = studentElo + k*(actual - expected)` with `actual` 1.0
for a correct outcome and 0.0 otherwise (spec section 4.4). -/
noncomputable def updateElo (studentElo questionElo : ℝ) (correct : Bool)
    (k : ℝ) : ℝ :=
  studentElo + k * ((if correct then (1:ℝ) else 0) -
    expectedScore studentElo questionElo)

/-- C6: for a fixed correct outcome, fixed student rating and fixed
positive `k`, the rating gain `newStudentElo - studentElo` is strictly
monotonically increasing in the question rating: a harder question
(relative to the student) yields a strictly larger gain. -/
theorem elo_gain_strict_mono (s k q1 q2 : ℝ) (hk : 0 < k) (hq : q1 < q2) :
    updateElo s q1 true k - s < updateElo s q2 true k - s := by
  have h1 : (0:ℝ) < 1 + (10:ℝ) ^ ((q1 - s) / 400) := by positivity
  have hlt : (10:ℝ) ^ ((q1 - s) / 400) < (10:ℝ) ^ ((q2 - s) / 400) :=
    (Real.rpow_lt_rpow_left_iff (by norm_num)).mpr (by linarith)
  have hexp : expectedScore s q2 < expectedScore s q1 := by
    unfold expectedScore
    exact one_div_lt_one_div_of_lt h1 (by linarith)
  have key : k * (1 - expectedScore s q1) < k * (1 - expectedScore s q2) :=
    mul_lt_mul_of_pos_left (by linarith) hk
  unfold updateElo
  simp only [if_true]
  linarith

/-- C6 witness: with `k = 24` and a student at 1200, a correct answer
on a 1300-rated question gains strictly more than on a 1100-rated
question. -/
theorem elo_gain_strict_mono_witness :
    (0:ℝ) < 24 ∧ (1100:ℝ) < 1300 ∧
    updateElo 1200 1100 true 24 - 1200 < updateElo 1200 1300 true 24 - 1200 :=
  ⟨by norm_num, by norm_num,
    elo_gain_strict_mono 1200 24 1100 1300 (by norm_num) (by norm_num)⟩

/-- C7 witness: in the freshly initialized record of the two-concept
graph, concept 1 (whose prerequisite 0 is not yet mastered) is locked;
submitting on it is rejected and the stored record is unchanged. -/
theorem submit_locked_concept_rejected_witness :
    (1 ∉ (freshRecord gAB).unlocked) ∧
    submitAnswer demoElo defaultThreshold gAB (freshRecord gAB) 1 true 1200 [] =
      Except.error SubmitError.conceptNotUnlocked ∧
    storeStep demoElo defaultThreshold gAB (freshRecord gAB) 1 true 1200 [] =
      freshRecord gAB :=
  ⟨by decide,
    (submit_locked_concept_rejected demoElo defaultThreshold gAB
      (freshRecord gAB) 1 true 1200 [] (by decide)).1,
    (submit_locked_concept_rejected demoElo defaultThreshold gAB
      (freshRecord gAB) 1 true 1200 [] (by decide)).2⟩


